import Mathlib

/-!
# Verification of the implicit-filtering optimizer

A shallow embedding of the implicit-filtering derivative-free optimizer
(`src/lib.rs`), its RK2 ODE stepper (`src/euler.rs`) and the supplied
mean-squared-error oracle (`src/main.rs`).

The Rust code computes with `f64`. We idealize `f64` arithmetic as exact
arithmetic in an arbitrary linear ordered field `α` (instantiated at `ℚ`
for concrete evaluations and at `ℝ` for the oracle, which involves the
real exponential). The inexact `f64` literals `0.7` and `0.001` are
idealized as the rationals `7/10` and `1/1000`; `0.25` is exact in `f64`.
Rust's `f64::signum`, on non-NaN input, returns `1.0` for positive values
and positive zero and `-1.0` for negative values and negative zero; the
field `α` has a single zero, which `signum` maps to `1`. Rust's saturating
cast `as usize` of a nonnegative finite `f64` truncates toward zero and
maps negative values to `0`, which is `Int.toNat ∘ Int.floor`. Division by
zero yields `0` in a field rather than an `f64` infinity; no claim below
depends on a division by zero.

Bounded `for` loops with `break`/`continue` are modelled by structural
recursion on an explicit fuel argument equal to the loop bound.
-/

section Optimizer

variable {α : Type*} [LinearOrderedField α]

/-- `const LINE_SEARCH_REDUCTION: f64 = 0.7;` (`src/lib.rs`). -/
def LINE_SEARCH_REDUCTION : α := 7 / 10

/-- `const STENCIL_REDUCTION: f64 = 0.25;` (`src/lib.rs`). -/
def STENCIL_REDUCTION : α := 1 / 4

/-- `const ARMIJO_CONSTANT: f64 = 0.001;` (`src/lib.rs`). -/
def ARMIJO_CONSTANT : α := 1 / 1000

/-- `const MAX_ITERS: usize = 10;` (`src/lib.rs`). -/
def MAX_ITERS : ℕ := 10

/-- `pub struct OptimResult { pub x: f64, pub mse: f64 }` (`src/lib.rs`).
Rust derives `PartialEq`, i.e. field-wise equality. -/
structure OptimResult (α : Type*) where
  x : α
  mse : α
deriving DecidableEq

/-- Rust `f64::signum` on non-NaN inputs: `1` for nonnegative, `-1` for
negative arguments. -/
def signum (x : α) : α := if x < 0 then -1 else 1

/-- `fn generate_gradient` (`src/lib.rs` lines 20-40): central finite
differences around `result.x` with stencil `h`; `none` when no descent
direction is observable or the gradient is below the noise floor. -/
def generate_gradient (mse : α → α → α) (result : OptimResult α) (h : α) :
    Option (α × α) :=
  let mse_centre := result.mse
  let mse_right := mse (result.x + h) h
  let mse_left := mse (result.x - h) h
  let grad := (mse_right - mse_left) / (2 * h)
  let hess := (mse_right + mse_left - 2 * mse_centre) / (h * h)
  if (mse_right ≥ mse_centre ∧ mse_left ≥ mse_centre) ∨ |grad| ≤ h then
    none
  else
    some (grad, hess)

/-- The `for i in 0..MAX_ITERS` loop body of `fn backtracking_line_search`
(`src/lib.rs` lines 49-62), with the `let` bindings
`a = LINE_SEARCH_REDUCTION.powi(i)`, `x_new = x + a*p`,
`mse_new = mse(x_new, h)` inlined; `i` is the current loop index and the
fuel counts the remaining iterations. -/
def backtracking_line_search_loop (mse : α → α → α) (x p grad h mse_old : α) :
    ℕ → ℕ → Option (OptimResult α)
  | _, 0 => none
  | i, fuel + 1 =>
    if mse (x + LINE_SEARCH_REDUCTION ^ i * p) h - mse_old ≤
        ARMIJO_CONSTANT * LINE_SEARCH_REDUCTION ^ i * p * grad then
      some ⟨x + LINE_SEARCH_REDUCTION ^ i * p,
            mse (x + LINE_SEARCH_REDUCTION ^ i * p) h⟩
    else
      backtracking_line_search_loop mse x p grad h mse_old (i + 1) fuel

/-- `fn backtracking_line_search` (`src/lib.rs` lines 45-65):
`mse_old = mse(x, h)`, then the loop with `MAX_ITERS` tries. -/
def backtracking_line_search (mse : α → α → α) (x p grad h : α) :
    Option (OptimResult α) :=
  backtracking_line_search_loop mse x p grad h (mse x h) 0 MAX_ITERS

/-- Lines 92-95 of `src/lib.rs`: the quasi-Newton direction
`p = -grad.signum()*grad.abs()/hess` followed by the two safeguards
(fall back to steepest descent when `p*grad > 0`, then clamp `|p|` to 3). -/
def search_direction (grad hess : α) : α :=
  let p := -signum grad * |grad| / hess
  let p1 := if p * grad ≤ 0 then p else -signum grad * |grad|
  if |p1| ≤ 3 then p1 else -signum grad * 3

/-- The `for _i in 0..MAX_ITERS` loop of `fn grad_search`
(`src/lib.rs` lines 80-111): on stencil failure or line-search failure
`break` with the current result, otherwise continue from the line-search
result. Diagnostic printing is dropped. -/
def grad_search_loop (mse : α → α → α) (h : α) :
    OptimResult α → ℕ → OptimResult α
  | current_result, 0 => current_result
  | current_result, fuel + 1 =>
    match generate_gradient mse current_result h with
    | none => current_result
    | some (grad, hess) =>
      match backtracking_line_search mse current_result.x
          (search_direction grad hess) grad h with
      | some result => grad_search_loop mse h result fuel
      | none => current_result

/-- `fn grad_search` (`src/lib.rs` lines 69-118): run the inner loop from
`(x, mse(x,h))`; return `none` when the final result equals the initial
one or fails to strictly decrease the loss. -/
def grad_search (mse : α → α → α) (x h : α) : Option (OptimResult α) :=
  let old_result : OptimResult α := ⟨x, mse x h⟩
  let current_result := grad_search_loop mse h old_result MAX_ITERS
  if current_result = old_result ∨ current_result.mse ≥ old_result.mse then
    none
  else
    some current_result

/-- The `for i in 0..20` loop of `fn implicit_filtering`
(`src/lib.rs` lines 124-142): stencil `h = h0 * STENCIL_REDUCTION^i`; on
`none` from `grad_search`, `continue` with the old result; otherwise adopt
the new result and `break` when `|old.x - new.x| ≤ tol`. -/
def implicit_filtering_loop (mse : α → α → α) (h0 tol : α) :
    OptimResult α → ℕ → ℕ → OptimResult α
  | old_result, _, 0 => old_result
  | old_result, i, fuel + 1 =>
    match grad_search mse old_result.x (h0 * STENCIL_REDUCTION ^ i) with
    | none => implicit_filtering_loop mse h0 tol old_result (i + 1) fuel
    | some new_result =>
      if |old_result.x - new_result.x| ≤ tol then new_result
      else implicit_filtering_loop mse h0 tol new_result (i + 1) fuel

/-- `pub fn implicit_filtering` (`src/lib.rs` lines 120-145). -/
def implicit_filtering (mse : α → α → α) (x0 h0 tol : α) : OptimResult α :=
  implicit_filtering_loop mse h0 tol ⟨x0, mse x0 h0⟩ 0 20

end Optimizer

section Stepper

variable {α : Type*} [LinearOrderedField α]

/-- `struct SolutionElement { time: f64, val: f64 }` (`src/euler.rs`). -/
structure SolutionElement (α : Type*) where
  time : α
  val : α
deriving DecidableEq

/-- `struct SolutionSequence` (`src/euler.rs`). -/
structure SolutionSequence (α : Type*) where
  stepsize : α
  beta : α
  soln_elem : SolutionElement α

/-- `const INITIAL_CONDITION` with `T0 = 0.0`, `Y0 = 1.0` (`src/euler.rs`). -/
def INITIAL_CONDITION : SolutionElement α := ⟨0, 1⟩

/-- `SolutionSequence::new` (`src/euler.rs` lines 22-26). -/
def SolutionSequence.new (stepsize beta : α) : SolutionSequence α :=
  ⟨stepsize, beta, INITIAL_CONDITION⟩

/-- `fn rk2_next` (`src/euler.rs` lines 29-49): one explicit RK2 (Heun)
step for `y' = beta * y`. -/
def rk2_next (current : SolutionElement α) (beta stepsize : α) :
    SolutionElement α :=
  let deriv := fun y => beta * y
  let t0 := current.time
  let y0 := current.val
  let d1 := deriv y0
  let k1 := d1
  let d2 := k1
  let k2 := deriv (y0 + stepsize * d2)
  let dy := (1 / 2 : α) * (k1 + k2)
  ⟨t0 + stepsize, y0 + stepsize * dy⟩

/-- `Iterator::next` for `SolutionSequence` (`src/euler.rs` lines 52-63):
advance the cursor one step and yield the new element (never `None`).
Modelled as returning the yielded element together with the updated
sequence state. -/
def SolutionSequence.next (s : SolutionSequence α) :
    SolutionElement α × SolutionSequence α :=
  let next_soln_elem := rk2_next s.soln_elem s.beta s.stepsize
  (next_soln_elem, ⟨s.stepsize, s.beta, next_soln_elem⟩)

/-- `Iterator::nth(n)` as used in `fn rk2`: skip `n` yielded elements and
return the next one, i.e. call `next` exactly `n + 1` times and return the
last yielded element. -/
def SolutionSequence.nth (s : SolutionSequence α) : ℕ → SolutionElement α
  | 0 => s.next.1
  | n + 1 => s.next.2.nth n

/-- `pub fn rk2` (`src/euler.rs` lines 67-74):
`n = (finish_time / stepsize) as usize` (truncating, saturating at 0),
then `soln_seq.nth(n).unwrap().val`. -/
def rk2 [FloorRing α] (beta stepsize finish_time : α) : α :=
  let n := (⌊finish_time / stepsize⌋).toNat
  ((SolutionSequence.new stepsize beta).nth n).val

/-- The element reached by advancing `n` times with `rk2_next` from a
given element (specification device for counting the steps `rk2` takes). -/
def advance_from (beta stepsize : α) (e : SolutionElement α) :
    ℕ → SolutionElement α
  | 0 => e
  | n + 1 => rk2_next (advance_from beta stepsize e n) beta stepsize

/-- The element reached by advancing `n` times with `rk2_next` from the
initial condition `(0, 1)`. -/
def advance (beta stepsize : α) (n : ℕ) : SolutionElement α :=
  advance_from beta stepsize INITIAL_CONDITION n

end Stepper

section Oracle

/-- `const BETA: f64 = 1.0;` (`src/main.rs`). -/
def BETA : ℝ := 1

/-- `const FINAL_TIME: f64 = 5.0;` (`src/main.rs`). -/
def FINAL_TIME : ℝ := 5

/-- `fn get_mse_rk2` (`src/main.rs` lines 14-21): squared error of the RK2
estimate at horizon `FINAL_TIME` against the closed-form value
`exp(BETA * FINAL_TIME)`. The exact real exponential is noncomputable in
Lean, so this definition is as well; all facts about it are proved, not
evaluated. -/
noncomputable def get_mse_rk2 (x h : ℝ) : ℝ :=
  let true_val := Real.exp (BETA * FINAL_TIME)
  let estimated_val := rk2 x h FINAL_TIME
  let error := true_val - estimated_val
  error ^ 2

end Oracle

section TestOracles

/-- A concrete smooth oracle over `ℚ` used to exhibit witnesses: the
quadratic loss `x ^ 2`, ignoring the stencil argument. -/
def quadratic_oracle (x : ℚ) (_ : ℚ) : ℚ := x ^ 2

/-- A perfectly flat oracle over `ℚ` used to exhibit witnesses. -/
def flat_oracle (_ : ℚ) (_ : ℚ) : ℚ := 0

end TestOracles

section SpecificationDevices

variable {α : Type*} [LinearOrderedField α]

/-- The Armijo sufficient-decrease test checked by the line-search loop at
index `i`: the candidate loss at step factor `LINE_SEARCH_REDUCTION ^ i`
drops below `mse_old` by at least the predicted decrease. -/
def armijo_accept (mse : α → α → α) (x p grad h mse_old : α) (i : ℕ) : Prop :=
  mse (x + LINE_SEARCH_REDUCTION ^ i * p) h - mse_old ≤
    ARMIJO_CONSTANT * LINE_SEARCH_REDUCTION ^ i * p * grad

/-- The candidate result the line search would return at index `i`. -/
def btls_candidate (mse : α → α → α) (x p h : α) (i : ℕ) : OptimResult α :=
  ⟨x + LINE_SEARCH_REDUCTION ^ i * p, mse (x + LINE_SEARCH_REDUCTION ^ i * p) h⟩

end SpecificationDevices

section Helpers

variable {α : Type*} [LinearOrderedField α]

/-- `generate_gradient` with its `let` bindings inlined. -/
lemma generate_gradient_eq (mse : α → α → α) (result : OptimResult α) (h : α) :
    generate_gradient mse result h =
      if (mse (result.x + h) h ≥ result.mse ∧ mse (result.x - h) h ≥ result.mse) ∨
          |(mse (result.x + h) h - mse (result.x - h) h) / (2 * h)| ≤ h then
        none
      else
        some ((mse (result.x + h) h - mse (result.x - h) h) / (2 * h),
              (mse (result.x + h) h + mse (result.x - h) h - 2 * result.mse) / (h * h)) :=
  rfl

/-- `grad_search` with its `let` bindings inlined. -/
lemma grad_search_eq (mse : α → α → α) (x h : α) :
    grad_search mse x h =
      if grad_search_loop mse h ⟨x, mse x h⟩ MAX_ITERS = (⟨x, mse x h⟩ : OptimResult α) ∨
          (grad_search_loop mse h ⟨x, mse x h⟩ MAX_ITERS).mse ≥ mse x h then
        none
      else
        some (grad_search_loop mse h ⟨x, mse x h⟩ MAX_ITERS) :=
  rfl

/-- `signum grad * grad = |grad|`: `signum` recovers the absolute value. -/
lemma signum_mul_self (x : α) : signum x * x = |x| := by
  rw [signum]
  split_ifs with hneg
  · rw [abs_of_neg hneg]; ring
  · rw [abs_of_nonneg (not_lt.mp hneg)]; ring

/-- The line-search loop returns `none` exactly when no remaining index
passes the Armijo test. -/
lemma btls_loop_none_iff (mse : α → α → α) (x p grad h mo : α) :
    ∀ (fuel i0 : ℕ),
      backtracking_line_search_loop mse x p grad h mo i0 fuel = none ↔
        ∀ k < fuel, ¬ armijo_accept mse x p grad h mo (i0 + k) := by
  intro fuel
  induction fuel with
  | zero =>
    intro i0
    simp [backtracking_line_search_loop]
  | succ f ih =>
    intro i0
    rw [backtracking_line_search_loop]
    split_ifs with hacc
    · refine iff_of_false (by simp) ?_
      intro hall
      exact hall 0 (Nat.succ_pos f)
        (show armijo_accept mse x p grad h mo (i0 + 0) by simpa [armijo_accept] using hacc)
    · rw [ih (i0 + 1)]
      constructor
      · intro hrest k hk
        cases k with
        | zero => simpa [armijo_accept] using hacc
        | succ k =>
          have h1 := hrest k (by omega)
          have heq : i0 + 1 + k = i0 + (k + 1) := by omega
          rwa [heq] at h1
      · intro hall k hk
        have h1 := hall (k + 1) (by omega)
        have heq : i0 + (k + 1) = i0 + 1 + k := by omega
        rwa [heq] at h1

/-- The line-search loop returns `some r` exactly when some remaining
index passes the Armijo test, `r` is the candidate at the first such
index, and all earlier remaining indices fail the test. -/
lemma btls_loop_some_iff (mse : α → α → α) (x p grad h mo : α) :
    ∀ (fuel i0 : ℕ) (r : OptimResult α),
      backtracking_line_search_loop mse x p grad h mo i0 fuel = some r ↔
        ∃ k, k < fuel ∧ armijo_accept mse x p grad h mo (i0 + k) ∧
          (∀ j < k, ¬ armijo_accept mse x p grad h mo (i0 + j)) ∧
          r = btls_candidate mse x p h (i0 + k) := by
  intro fuel
  induction fuel with
  | zero =>
    intro i0 r
    simp [backtracking_line_search_loop]
  | succ f ih =>
    intro i0 r
    rw [backtracking_line_search_loop]
    split_ifs with hacc
    · constructor
      · intro hsome
        refine ⟨0, Nat.succ_pos f, ?_, ?_, ?_⟩
        · simpa [armijo_accept] using hacc
        · intro j hj
          exact absurd hj (Nat.not_lt_zero j)
        · have h1 := (Option.some.inj hsome).symm
          simpa [btls_candidate] using h1
      · rintro ⟨k, hk, hacck, hprev, hr⟩
        cases k with
        | zero =>
          subst hr
          simp [btls_candidate]
        | succ k =>
          exact absurd
            (show armijo_accept mse x p grad h mo (i0 + 0) by simpa [armijo_accept] using hacc)
            (hprev 0 (Nat.succ_pos k))
    · rw [ih (i0 + 1) r]
      constructor
      · rintro ⟨k, hk, hacck, hprev, hr⟩
        refine ⟨k + 1, by omega, ?_, ?_, ?_⟩
        · have heq : i0 + (k + 1) = i0 + 1 + k := by omega
          rwa [heq]
        · intro j hj
          cases j with
          | zero => simpa [armijo_accept] using hacc
          | succ j =>
            have h1 := hprev j (by omega)
            have heq : i0 + 1 + j = i0 + (j + 1) := by omega
            rwa [heq] at h1
        · have heq : i0 + (k + 1) = i0 + 1 + k := by omega
          rwa [heq]
      · rintro ⟨k, hk, hacck, hprev, hr⟩
        cases k with
        | zero =>
          have h1 : armijo_accept mse x p grad h mo i0 := by simpa using hacck
          simp only [armijo_accept] at h1
          exact absurd h1 hacc
        | succ k =>
          refine ⟨k, by omega, ?_, ?_, ?_⟩
          · have heq : i0 + 1 + k = i0 + (k + 1) := by omega
            rwa [heq]
          · intro j hj
            have h1 := hprev (j + 1) (by omega)
            have heq : i0 + (j + 1) = i0 + 1 + j := by omega
            rwa [heq] at h1
          · have heq : i0 + 1 + k = i0 + (k + 1) := by omega
            rwa [heq]

/-- `backtracking_line_search` succeeds with the candidate at the first
accepted index below `MAX_ITERS = 10`. -/
lemma btls_some_iff (mse : α → α → α) (x p grad h : α) (r : OptimResult α) :
    backtracking_line_search mse x p grad h = some r ↔
      ∃ i, i < 10 ∧ armijo_accept mse x p grad h (mse x h) i ∧
        (∀ j < i, ¬ armijo_accept mse x p grad h (mse x h) j) ∧
        r = btls_candidate mse x p h i := by
  rw [backtracking_line_search, btls_loop_some_iff]
  simp [MAX_ITERS]

/-- `backtracking_line_search` fails exactly when all ten indices fail the
Armijo test. -/
lemma btls_none_iff (mse : α → α → α) (x p grad h : α) :
    backtracking_line_search mse x p grad h = none ↔
      ∀ i < 10, ¬ armijo_accept mse x p grad h (mse x h) i := by
  rw [backtracking_line_search, btls_loop_none_iff]
  simp [MAX_ITERS]

/-- Any result of the line search carries the oracle value at its own
point and the stencil in effect. -/
lemma btls_some_mse (mse : α → α → α) (x p grad h : α) (r : OptimResult α)
    (hr : backtracking_line_search mse x p grad h = some r) : r.mse = mse r.x h := by
  obtain ⟨i, -, -, -, hcand⟩ := (btls_some_iff mse x p grad h r).mp hr
  subst hcand
  rfl

/-- The inner loop preserves the invariant that the current result's loss
is the oracle value at its own point and the active stencil. -/
lemma grad_search_loop_mse_inv (mse : α → α → α) (h : α) :
    ∀ (fuel : ℕ) (cur : OptimResult α), cur.mse = mse cur.x h →
      (grad_search_loop mse h cur fuel).mse = mse (grad_search_loop mse h cur fuel).x h := by
  intro fuel
  induction fuel with
  | zero =>
    intro cur hcur
    simpa [grad_search_loop] using hcur
  | succ f ih =>
    intro cur hcur
    cases hgg : generate_gradient mse cur h with
    | none =>
      simp only [grad_search_loop, hgg]
      exact hcur
    | some gh =>
      obtain ⟨grad, hess⟩ := gh
      cases hbt : backtracking_line_search mse cur.x (search_direction grad hess) grad h with
      | none =>
        simp only [grad_search_loop, hgg, hbt]
        exact hcur
      | some r =>
        simp only [grad_search_loop, hgg, hbt]
        exact ih r (btls_some_mse mse cur.x (search_direction grad hess) grad h r hbt)

/-- Any result `grad_search` returns carries the oracle value at its own
point and the stencil in effect. -/
lemma grad_search_some_mse (mse : α → α → α) (x h : α) (r : OptimResult α)
    (hr : grad_search mse x h = some r) : r.mse = mse r.x h := by
  rw [grad_search_eq] at hr
  split_ifs at hr with hc
  rw [← Option.some.inj hr]
  exact grad_search_loop_mse_inv mse h MAX_ITERS ⟨x, mse x h⟩ rfl

/-- For a constant oracle the very first stencil test already fails, so
`grad_search` signals no improvement at every point and stencil. -/
lemma grad_search_const (c x h : α) :
    grad_search (fun _ _ => c) x h = none := by
  have hgg : generate_gradient (fun _ _ => c) (⟨x, c⟩ : OptimResult α) h = none := by
    rw [generate_gradient_eq]
    exact if_pos (Or.inl ⟨le_refl c, le_refl c⟩)
  have hloop : grad_search_loop (fun _ _ => c) h (⟨x, c⟩ : OptimResult α) MAX_ITERS = ⟨x, c⟩ := by
    rw [show MAX_ITERS = 9 + 1 from rfl, grad_search_loop]
    simp only [hgg]
  simp only [grad_search_eq]
  rw [hloop]
  simp

/-- If every `grad_search` call fails, the outer loop never updates its
best result. -/
lemma implicit_filtering_loop_all_none (mse : α → α → α) (h0 tol : α)
    (hfail : ∀ x h, grad_search mse x h = none) :
    ∀ (fuel i : ℕ) (best : OptimResult α),
      implicit_filtering_loop mse h0 tol best i fuel = best := by
  intro fuel
  induction fuel with
  | zero => intro i best; rfl
  | succ f ih =>
    intro i best
    rw [implicit_filtering_loop]
    simp only [hfail]
    exact ih (i + 1) best

/-- If `grad_search` fails at every stencil index below `m` and succeeds
at index `m` within the fuel budget with a result inside tolerance, the
outer loop returns that result. -/
lemma implicit_filtering_loop_first_hit (mse : α → α → α) (h0 tol : α)
    (best : OptimResult α) :
    ∀ (fuel i m : ℕ) (new : OptimResult α), i ≤ m → m < i + fuel →
      (∀ j, i ≤ j → j < m → grad_search mse best.x (h0 * STENCIL_REDUCTION ^ j) = none) →
      grad_search mse best.x (h0 * STENCIL_REDUCTION ^ m) = some new →
      |best.x - new.x| ≤ tol →
      implicit_filtering_loop mse h0 tol best i fuel = new := by
  intro fuel
  induction fuel with
  | zero =>
    intro i m new him hm _ _ _
    omega
  | succ f ih =>
    intro i m new him hm hnone hsome htol
    rcases Nat.eq_or_lt_of_le him with heq | hlt
    · subst heq
      rw [implicit_filtering_loop]
      simp only [hsome]
      rw [if_pos htol]
    · rw [implicit_filtering_loop]
      rw [hnone i le_rfl hlt]
      exact ih (i + 1) m new hlt (by omega)
        (fun j hj1 hj2 => hnone j (by omega) hj2) hsome htol

/-- Through the outer loop, the best result's loss is always the oracle
value at its own point and some stencil of the schedule. -/
lemma implicit_filtering_loop_schedule (mse : α → α → α) (h0 tol : α) :
    ∀ (fuel i : ℕ) (best : OptimResult α),
      (∃ j, best.mse = mse best.x (h0 * STENCIL_REDUCTION ^ j)) →
      ∃ j, (implicit_filtering_loop mse h0 tol best i fuel).mse =
        mse (implicit_filtering_loop mse h0 tol best i fuel).x
          (h0 * STENCIL_REDUCTION ^ j) := by
  intro fuel
  induction fuel with
  | zero =>
    intro i best hbest
    simpa [implicit_filtering_loop] using hbest
  | succ f ih =>
    intro i best hbest
    cases hgs : grad_search mse best.x (h0 * STENCIL_REDUCTION ^ i) with
    | none =>
      rw [implicit_filtering_loop]
      simp only [hgs]
      exact ih (i + 1) best hbest
    | some new =>
      have hnew : new.mse = mse new.x (h0 * STENCIL_REDUCTION ^ i) :=
        grad_search_some_mse mse best.x (h0 * STENCIL_REDUCTION ^ i) new hgs
      rw [implicit_filtering_loop]
      simp only [hgs]
      by_cases htol : |best.x - new.x| ≤ tol
      · rw [if_pos htol]
        exact ⟨i, hnew⟩
      · rw [if_neg htol]
        exact ih (i + 1) new ⟨i, hnew⟩

/-- Advancing `n + 1` times from `e` is advancing `n` times from the
element one step after `e`. -/
lemma advance_from_shift (beta stepsize : α) (e : SolutionElement α) :
    ∀ n : ℕ, advance_from beta stepsize e (n + 1) =
      advance_from beta stepsize (rk2_next e beta stepsize) n := by
  intro n
  induction n with
  | zero => rfl
  | succ n ih =>
    rw [advance_from, ih]
    rfl

/-- `Iterator::nth n` on a sequence whose cursor sits at `e` yields the
element `n + 1` steps after `e`. -/
lemma nth_eq_advance_from (beta stepsize : α) :
    ∀ (n : ℕ) (e : SolutionElement α),
      SolutionSequence.nth ⟨stepsize, beta, e⟩ n =
        advance_from beta stepsize e (n + 1) := by
  intro n
  induction n with
  | zero => intro e; rfl
  | succ n ih =>
    intro e
    rw [SolutionSequence.nth]
    have h1 : (SolutionSequence.next (⟨stepsize, beta, e⟩ : SolutionSequence α)).2 =
        (⟨stepsize, beta, rk2_next e beta stepsize⟩ : SolutionSequence α) := rfl
    rw [h1, ih]
    exact (advance_from_shift beta stepsize e (n + 1)).symm

end Helpers

/-- Counterexample to C2: with rate constant `1`, step size `10 > 0` and
horizon `5`, the truncated step count `⌊T/delta⌋` is `0`, yet `rk2` does
not return the initial value `y0 = 1` — it advances one extra step. -/
theorem rk2_floor_zero_counterexample :
    0 < (10 : ℚ) ∧ (⌊(5 : ℚ) / 10⌋).toNat = 0 ∧
      rk2 (1 : ℚ) 10 5 ≠ (INITIAL_CONDITION : SolutionElement ℚ).val := by
  refine ⟨by norm_num, by norm_num, ?_⟩
  have h61 : rk2 (1 : ℚ) 10 5 = 61 := by
    norm_num [rk2, SolutionSequence.new, SolutionSequence.nth, SolutionSequence.next,
      rk2_next, INITIAL_CONDITION]
  rw [h61]
  norm_num [INITIAL_CONDITION]

/-- C2 (amended): `rk2(beta, delta, T)` returns the value obtained by
advancing exactly `(⌊T/delta⌋).toNat + 1` times from the initial
condition `(0, 1)`; in particular when the truncated step count is `0` it
returns the value after a single `rk2_next` step, not the initial value. -/
theorem rk2_step_count {α : Type*} [LinearOrderedField α] [FloorRing α]
    (beta delta T : α) :
    rk2 beta delta T = (advance beta delta ((⌊T / delta⌋).toNat + 1)).val ∧
    ((⌊T / delta⌋).toNat = 0 →
      rk2 beta delta T = (rk2_next INITIAL_CONDITION beta delta).val) := by
  have h1 : rk2 beta delta T = (advance beta delta ((⌊T / delta⌋).toNat + 1)).val := by
    rw [rk2, advance, SolutionSequence.new]
    exact congrArg SolutionElement.val
      (nth_eq_advance_from beta delta (⌊T / delta⌋).toNat INITIAL_CONDITION)
  refine ⟨h1, fun h0 => ?_⟩
  rw [h1, h0]
  rfl

/-- Witness for C2 (amended): at `beta = 1`, `delta = 10`, `T = 5` the
truncated count is `0` and `rk2` returns the single-step value. -/
theorem rk2_step_count_witness :
    rk2 (1 : ℚ) 10 5 = (rk2_next (INITIAL_CONDITION : SolutionElement ℚ) 1 10).val :=
  (rk2_step_count (1 : ℚ) 10 5).2 (by norm_num)

/-- `rk2` at rate `1`, step `10`, horizon `5`: a single RK2 step of size
`10` from `(0, 1)` gives `1 + 10 * (1 + 11) / 2 = 61`. -/
lemma rk2_one_ten_real : rk2 (1 : ℝ) 10 5 = 61 := by
  norm_num [rk2, SolutionSequence.new, SolutionSequence.nth, SolutionSequence.next,
    rk2_next, INITIAL_CONDITION]

/-- `rk2` at rate `1`, step `20`, horizon `5`: a single RK2 step of size
`20` from `(0, 1)` gives `1 + 20 * (1 + 21) / 2 = 221`. -/
lemma rk2_one_twenty_real : rk2 (1 : ℝ) 20 5 = 221 := by
  norm_num [rk2, SolutionSequence.new, SolutionSequence.nth, SolutionSequence.next,
    rk2_next, INITIAL_CONDITION]

/-- `exp 5 > 141`, via `exp 1 > 2.7` and `2.7 ^ 5 = 143.48907`. -/
lemma exp_five_gt_141 : (141 : ℝ) < Real.exp 5 := by
  have h1 : (2.7 : ℝ) < Real.exp 1 := lt_trans (by norm_num) Real.exp_one_gt_d9
  have h2 : Real.exp 1 ^ (5 : ℕ) = Real.exp 5 := by
    rw [Real.exp_one_pow]
    norm_num
  have h3 : (2.7 : ℝ) ^ (5 : ℕ) < Real.exp 1 ^ (5 : ℕ) :=
    pow_lt_pow_left₀ h1 (by norm_num) (by norm_num)
  calc (141 : ℝ) < 2.7 ^ (5 : ℕ) := by norm_num
    _ < Real.exp 1 ^ (5 : ℕ) := h3
    _ = Real.exp 5 := h2

/-- The supplied oracle's loss at `x = 1` differs between stencils `10`
and `20`: the stencil is the integration step size, so the RK2 estimates
(`61` and `221`) and hence the squared errors differ, since
`exp 5 ≠ (61 + 221) / 2 = 141`. -/
lemma get_mse_rk2_ten_ne_twenty : get_mse_rk2 1 10 ≠ get_mse_rk2 1 20 := by
  have h10 : get_mse_rk2 1 10 = (Real.exp 5 - 61) ^ 2 := by
    simp only [get_mse_rk2, BETA, FINAL_TIME, one_mul, rk2_one_ten_real]
  have h20 : get_mse_rk2 1 20 = (Real.exp 5 - 221) ^ 2 := by
    simp only [get_mse_rk2, BETA, FINAL_TIME, one_mul, rk2_one_twenty_real]
  rw [h10, h20]
  intro heq
  have h141 := exp_five_gt_141
  nlinarith [heq, h141]

/-- Counterexample to C1: at parameter `x = 1` and positive stencil sizes
`10` and `20`, the included ODE-based oracle returns different losses, so
the loss does depend on the stencil-size argument. -/
theorem get_mse_rk2_stencil_counterexample :
    0 < (10 : ℝ) ∧ 0 < (20 : ℝ) ∧ get_mse_rk2 1 10 ≠ get_mse_rk2 1 20 :=
  ⟨by norm_num, by norm_num, get_mse_rk2_ten_ne_twenty⟩

/-- C1 (amended): the included ODE-based oracle's loss does depend on its
second (stencil-size) argument, which it uses as the integration step
size: there are a parameter and two positive stencil sizes with different
losses. -/
theorem get_mse_rk2_depends_on_stencil :
    ∃ x h1 h2 : ℝ, 0 < h1 ∧ 0 < h2 ∧ get_mse_rk2 x h1 ≠ get_mse_rk2 x h2 :=
  ⟨1, 10, 20, by norm_num, by norm_num, get_mse_rk2_ten_ne_twenty⟩

/-- C4: for every oracle, current result and stencil `h > 0`,
`generate_gradient` returns no estimate exactly when both neighbor losses
are at least the center loss or the central-difference gradient has
absolute value at most `h`; otherwise it returns the pair of the gradient
estimate `(lossRight - lossLeft)/(2h)` and the Hessian estimate
`(lossRight + lossLeft - 2*loss)/h²`. -/
theorem generate_gradient_none_iff {α : Type*} [LinearOrderedField α]
    (mse : α → α → α) (result : OptimResult α) (h : α) (hpos : 0 < h) :
    (generate_gradient mse result h = none ↔
      (mse (result.x + h) h ≥ result.mse ∧ mse (result.x - h) h ≥ result.mse) ∨
        |(mse (result.x + h) h - mse (result.x - h) h) / (2 * h)| ≤ h) ∧
    (¬ ((mse (result.x + h) h ≥ result.mse ∧ mse (result.x - h) h ≥ result.mse) ∨
        |(mse (result.x + h) h - mse (result.x - h) h) / (2 * h)| ≤ h) →
      generate_gradient mse result h =
        some ((mse (result.x + h) h - mse (result.x - h) h) / (2 * h),
              (mse (result.x + h) h + mse (result.x - h) h - 2 * result.mse) / (h * h))) := by
  rw [generate_gradient_eq]
  constructor
  · split_ifs with hc
    · simp [hc]
    · simp [hc]
  · intro hc
    rw [if_neg hc]

/-- Witness for C4: on the quadratic oracle at `(1, 1)` with stencil `1`,
the conditions fail and the estimate `(2, 2)` is returned. -/
theorem generate_gradient_none_iff_witness :
    generate_gradient quadratic_oracle ⟨1, 1⟩ 1 = some (2, 2) := by
  have h := (generate_gradient_none_iff quadratic_oracle ⟨1, 1⟩ 1 (by norm_num)).2
    (by norm_num [quadratic_oracle])
  rw [h]
  norm_num [quadratic_oracle]

/-- C7: for every gradient `grad` and Hessian `hess` produced by a
successful estimate at stencil `h > 0` (so `|grad| > h`), the safeguarded
quasi-Newton direction satisfies `p * grad ≤ 0`, so the assertion in
`grad_search` never fails. -/
theorem search_direction_descent {α : Type*} [LinearOrderedField α]
    (grad hess h : α) (hpos : 0 < h) (hgrad : h < |grad|) :
    search_direction grad hess * grad ≤ 0 := by
  have hsg := signum_mul_self grad
  simp only [search_direction]
  split_ifs with h1 h2 h3
  · exact h1
  · have he : -signum grad * 3 * grad = -(3 * (signum grad * grad)) := by ring
    rw [he, hsg]
    have := abs_nonneg grad
    linarith
  · have he : -signum grad * |grad| * grad = -(|grad| * (signum grad * grad)) := by ring
    rw [he, hsg, neg_nonpos]
    exact mul_nonneg (abs_nonneg grad) (abs_nonneg grad)
  · have he : -signum grad * 3 * grad = -(3 * (signum grad * grad)) := by ring
    rw [he, hsg]
    have := abs_nonneg grad
    linarith

/-- Witness for C7: at `grad = 2`, `hess = 2`, `h = 1`. -/
theorem search_direction_descent_witness :
    search_direction (2 : ℚ) 2 * 2 ≤ 0 :=
  search_direction_descent 2 2 1 (by norm_num) (by norm_num)

/-- C5: `backtracking_line_search` returns the candidate
`(x + a*p, oracle(x + a*p, h))` for the smallest `i < 10` with
`a = 0.7 ^ i` whose loss satisfies the Armijo test
`oracle(x + a*p, h) - oracle(x, h) ≤ 0.001 * a * p * grad`, and returns
`none` exactly when no `i < 10` satisfies it. -/
theorem backtracking_line_search_spec {α : Type*} [LinearOrderedField α]
    (mse : α → α → α) (x p grad h : α) :
    (∀ r : OptimResult α,
        backtracking_line_search mse x p grad h = some r ↔
          ∃ i, i < 10 ∧ armijo_accept mse x p grad h (mse x h) i ∧
            (∀ j < i, ¬ armijo_accept mse x p grad h (mse x h) j) ∧
            r = btls_candidate mse x p h i) ∧
    (backtracking_line_search mse x p grad h = none ↔
        ∀ i < 10, ¬ armijo_accept mse x p grad h (mse x h) i) :=
  ⟨fun r => btls_some_iff mse x p grad h r, btls_none_iff mse x p grad h⟩

/-- Witness for C5: on the quadratic oracle from `x = 1` along `p = -1`
with `grad = 2`, `h = 1`, the very first candidate is accepted. -/
theorem backtracking_line_search_spec_witness :
    backtracking_line_search quadratic_oracle 1 (-1) 2 1 = some ⟨0, 0⟩ := by
  refine ((backtracking_line_search_spec quadratic_oracle 1 (-1) 2 1).1 ⟨0, 0⟩).mpr
    ⟨0, by norm_num, ?_, ?_, ?_⟩
  · norm_num [armijo_accept, quadratic_oracle, LINE_SEARCH_REDUCTION, ARMIJO_CONSTANT]
  · intro j hj
    exact absurd hj (Nat.not_lt_zero j)
  · norm_num [btls_candidate, quadratic_oracle, LINE_SEARCH_REDUCTION]

/-- C10: with stencil `h > 0`, a gradient estimate above the noise floor
(`|grad| > h`), and a safeguarded nonzero descent direction
(`p ≠ 0`, `p * grad ≤ 0`), any result the backtracking line search
returns has loss strictly below the loss at the starting point, because
the Armijo right-hand side is strictly negative. -/
theorem armijo_accepted_strict_decrease {α : Type*} [LinearOrderedField α]
    (mse : α → α → α) (x p grad h : α) (r : OptimResult α)
    (hpos : 0 < h) (hgrad : h < |grad|) (hp : p ≠ 0) (hpg : p * grad ≤ 0)
    (hr : backtracking_line_search mse x p grad h = some r) :
    r.mse < mse x h := by
  obtain ⟨i, -, hacc, -, hcand⟩ := (btls_some_iff mse x p grad h r).mp hr
  subst hcand
  simp only [armijo_accept] at hacc
  simp only [btls_candidate]
  have hgne : grad ≠ 0 := by
    intro hg0
    rw [hg0, abs_zero] at hgrad
    linarith
  have hpg2 : p * grad < 0 := lt_of_le_of_ne hpg (mul_ne_zero hp hgne)
  have hA : (0 : α) < ARMIJO_CONSTANT * LINE_SEARCH_REDUCTION ^ i := by
    rw [ARMIJO_CONSTANT, LINE_SEARCH_REDUCTION]
    positivity
  have hneg := mul_neg_of_pos_of_neg hA hpg2
  linarith

/-- Witness for C10: the accepted step of the quadratic-oracle line
search strictly decreases the loss (`0 < 1`). -/
theorem armijo_accepted_strict_decrease_witness :
    (⟨0, 0⟩ : OptimResult ℚ).mse < quadratic_oracle 1 1 :=
  armijo_accepted_strict_decrease quadratic_oracle 1 (-1) 2 1 ⟨0, 0⟩
    (by norm_num) (by norm_num) (by norm_num) (by norm_num)
    (by norm_num [backtracking_line_search, backtracking_line_search_loop, MAX_ITERS,
      quadratic_oracle, LINE_SEARCH_REDUCTION, ARMIJO_CONSTANT])

/-- C6: `grad_search` returns a result exactly when the final current
result of its inner loop both differs from the initial result
`(x, oracle(x, h))` and has strictly lower loss; otherwise it signals no
improvement by returning `none`. -/
theorem grad_search_spec {α : Type*} [LinearOrderedField α]
    (mse : α → α → α) (x h : α) :
    (∀ r : OptimResult α, grad_search mse x h = some r ↔
        r = grad_search_loop mse h ⟨x, mse x h⟩ MAX_ITERS ∧
        r ≠ (⟨x, mse x h⟩ : OptimResult α) ∧ r.mse < mse x h) ∧
    (grad_search mse x h = none ↔
        grad_search_loop mse h ⟨x, mse x h⟩ MAX_ITERS = (⟨x, mse x h⟩ : OptimResult α) ∨
        mse x h ≤ (grad_search_loop mse h ⟨x, mse x h⟩ MAX_ITERS).mse) := by
  rw [grad_search_eq]
  split_ifs with hc
  · constructor
    · intro r
      refine iff_of_false (by simp) ?_
      rintro ⟨hr, hne, hlt⟩
      subst hr
      rcases hc with h1 | h2
      · exact hne h1
      · exact absurd hlt (not_lt.mpr h2)
    · simpa [ge_iff_le] using hc
  · push_neg at hc
    obtain ⟨hne, hgt⟩ := hc
    constructor
    · intro r
      constructor
      · intro hsome
        have hr := (Option.some.inj hsome).symm
        subst hr
        exact ⟨rfl, hne, hgt⟩
      · rintro ⟨hr, -, -⟩
        rw [hr]
    · refine iff_of_false (by simp) ?_
      rintro (h1 | h2)
      · exact hne h1
      · exact absurd hgt (not_lt.mpr h2)

/-- Witness for C6: on the flat oracle the inner loop never moves, so
`grad_search` signals no improvement. -/
theorem grad_search_spec_witness :
    grad_search flat_oracle 1 1 = none :=
  (grad_search_spec flat_oracle 1 1).2.mpr
    (Or.inl (by norm_num [grad_search_loop, MAX_ITERS, generate_gradient, flat_oracle]))

/-- C3: `implicit_filtering` starts from `(x0, oracle(x0, h0))` and runs
20 outer iterations with stencil `h0 * 0.25 ^ i`; a `none` from
`grad_search` moves to the next stencil with the best result unchanged; a
returned result `new` replaces the best result and stops the loop exactly
when `|best.x - new.x| ≤ tol`; in particular, when every earlier stencil
produced no improvement and the first accepted improvement lands within
`tol`, the loop ends at that improvement and returns it. -/
theorem implicit_filtering_spec {α : Type*} [LinearOrderedField α]
    (mse : α → α → α) (x0 h0 tol : α) :
    implicit_filtering mse x0 h0 tol =
        implicit_filtering_loop mse h0 tol ⟨x0, mse x0 h0⟩ 0 20 ∧
    (∀ (best : OptimResult α) (i : ℕ),
        implicit_filtering_loop mse h0 tol best i 0 = best) ∧
    (∀ (best : OptimResult α) (i fuel : ℕ),
        grad_search mse best.x (h0 * STENCIL_REDUCTION ^ i) = none →
        implicit_filtering_loop mse h0 tol best i (fuel + 1) =
          implicit_filtering_loop mse h0 tol best (i + 1) fuel) ∧
    (∀ (best new : OptimResult α) (i fuel : ℕ),
        grad_search mse best.x (h0 * STENCIL_REDUCTION ^ i) = some new →
        implicit_filtering_loop mse h0 tol best i (fuel + 1) =
          if |best.x - new.x| ≤ tol then new
          else implicit_filtering_loop mse h0 tol new (i + 1) fuel) ∧
    (∀ i : ℕ, i < 20 → ∀ new : OptimResult α,
        (∀ j < i, grad_search mse x0 (h0 * STENCIL_REDUCTION ^ j) = none) →
        grad_search mse x0 (h0 * STENCIL_REDUCTION ^ i) = some new →
        |x0 - new.x| ≤ tol →
        implicit_filtering mse x0 h0 tol = new) := by
  refine ⟨rfl, fun best i => rfl, ?_, ?_, ?_⟩
  · intro best i fuel hnone
    rw [implicit_filtering_loop]
    simp only [hnone]
  · intro best new i fuel hsome
    rw [implicit_filtering_loop]
    simp only [hsome]
  · intro i hi new hprev hsome htol
    exact implicit_filtering_loop_first_hit mse h0 tol ⟨x0, mse x0 h0⟩ 20 0 i new
      (Nat.zero_le i) (by omega) (fun j _ hj2 => hprev j hj2) hsome htol

/-- Witness for C3: on the quadratic oracle from `x0 = 1`, `h0 = 1`, the
first stencil already yields an accepted improvement within `tol = 1`, so
the outer loop ends after exactly that one improvement. -/
theorem implicit_filtering_spec_witness :
    implicit_filtering quadratic_oracle 1 1 1 = ⟨0, 0⟩ := by
  refine (implicit_filtering_spec quadratic_oracle 1 1 1).2.2.2.2 0 (by norm_num) ⟨0, 0⟩
    ?_ ?_ ?_
  · intro j hj
    exact absurd hj (Nat.not_lt_zero j)
  · norm_num [STENCIL_REDUCTION, grad_search, grad_search_loop, MAX_ITERS, generate_gradient,
      quadratic_oracle, search_direction, signum, backtracking_line_search,
      backtracking_line_search_loop, LINE_SEARCH_REDUCTION, ARMIJO_CONSTANT]
  · norm_num

/-- C8: if every inner-loop attempt fails — in particular for every
constant oracle, where each stencil attempt fails — `implicit_filtering`
returns exactly the initial result `(x0, oracle(x0, h0))`. -/
theorem implicit_filtering_all_fail {α : Type*} [LinearOrderedField α]
    (x0 h0 tol : α) :
    (∀ mse : α → α → α, (∀ x h, grad_search mse x h = none) →
        implicit_filtering mse x0 h0 tol = ⟨x0, mse x0 h0⟩) ∧
    (∀ c : α,
        (∀ x h, grad_search (fun _ _ => c) x h = (none : Option (OptimResult α))) ∧
        implicit_filtering (fun _ _ => c) x0 h0 tol = ⟨x0, c⟩) := by
  refine ⟨fun mse hf => implicit_filtering_loop_all_none mse h0 tol hf 20 0 _, fun c => ⟨?_, ?_⟩⟩
  · exact fun x h => grad_search_const c x h
  · exact implicit_filtering_loop_all_none (fun _ _ => c) h0 tol
      (fun x h => grad_search_const c x h) 20 0 _

/-- Witness for C8: the flat oracle never improves, and the initial
result is returned unchanged. -/
theorem implicit_filtering_all_fail_witness :
    implicit_filtering (fun _ _ => (0 : ℚ)) 1 1 1 = ⟨1, 0⟩ :=
  ((implicit_filtering_all_fail (1 : ℚ) 1 1).2 0).2

/-- C9: every `OptimResult` the optimizer constructs satisfies
`loss = oracle(x, h)` for the stencil `h` in effect at its creation: line
search results and `grad_search` results carry the oracle value at the
current stencil, the inner loop preserves this, and the final result of
`implicit_filtering` carries the oracle value at some stencil of the
schedule (each `grad_search` call re-evaluates the carried-over point at
the new stencil before any derivative estimation). -/
theorem optim_result_loss_invariant {α : Type*} [LinearOrderedField α]
    (mse : α → α → α) :
    (∀ x p grad h : α, ∀ r : OptimResult α,
        backtracking_line_search mse x p grad h = some r → r.mse = mse r.x h) ∧
    (∀ h : α, ∀ cur : OptimResult α, cur.mse = mse cur.x h → ∀ fuel : ℕ,
        (grad_search_loop mse h cur fuel).mse = mse (grad_search_loop mse h cur fuel).x h) ∧
    (∀ x h : α, ∀ r : OptimResult α,
        grad_search mse x h = some r → r.mse = mse r.x h) ∧
    (∀ x0 h0 tol : α, ∃ i : ℕ,
        (implicit_filtering mse x0 h0 tol).mse =
          mse (implicit_filtering mse x0 h0 tol).x (h0 * STENCIL_REDUCTION ^ i)) := by
  refine ⟨fun x p grad h r => btls_some_mse mse x p grad h r,
    fun h cur hcur fuel => grad_search_loop_mse_inv mse h fuel cur hcur,
    fun x h r => grad_search_some_mse mse x h r,
    fun x0 h0 tol => ?_⟩
  exact implicit_filtering_loop_schedule mse h0 tol 20 0 ⟨x0, mse x0 h0⟩
    ⟨0, by rw [pow_zero, mul_one]⟩

/-- Witness for C9: the result `grad_search` returns on the quadratic
oracle carries the oracle value at its own point. -/
theorem optim_result_loss_invariant_witness :
    (⟨0, 0⟩ : OptimResult ℚ).mse = quadratic_oracle (⟨0, 0⟩ : OptimResult ℚ).x 1 :=
  (optim_result_loss_invariant quadratic_oracle).2.2.1 1 1 ⟨0, 0⟩
    (by norm_num [grad_search, grad_search_loop, MAX_ITERS, generate_gradient,
      quadratic_oracle, search_direction, signum, backtracking_line_search,
      backtracking_line_search_loop, LINE_SEARCH_REDUCTION, ARMIJO_CONSTANT])
